import Mathlib

/-!
Verification of the array-rearrangement routines in `ZeroesToBeginning.cc`.

The C++ file defines two functions that move every zero-valued element of an
integer array to the front of the array:

* `ZeroesToBeginningRuntimeOptimized` builds a zero-filled scratch array,
  scans the input backwards placing each non-zero element at a descending
  write cursor, then copies the scratch array over the input.
* `ZeroesToBeginningSpaceOptimized` rearranges in place with two cursors:
  an outer cursor `i` descending from `array_size - 1` and an inner cursor
  `next_zero` ascending from `0`.

Both return `0` on success and `-1` when the array pointer is `NULL` or
`array_size == 0`.

Embedding choices:

* The array argument is `Option (List Int)`: `none` models a `NULL` pointer,
  `some a` a pointer to a block holding the elements `a`.
* `array_size` is an `Int`, matching the C `int` parameter (which is not
  forced to agree with the actual allocation size).
* A call result is a `CResult`: either `ret status arr` (the returned status
  together with the final contents of the caller's array), or `ub` when the
  C program has undefined behaviour on that input (an out-of-bounds access
  when `array_size` exceeds the real length, or `new int[n]` with `n < 0`,
  which raises rather than returning).
-/

set_option maxHeartbeats 1000000

/-- Outcome of a call: a returned status code together with the final state
of the caller's array (`none` when the caller passed `NULL`), or undefined
behaviour. -/
inductive CResult where
  | ret (status : Int) (arr : Option (List Int))
  | ub
deriving DecidableEq, Repr

/-- Number of zero-valued elements of a list. -/
def zCount (l : List Int) : Nat := l.countP (fun x => x == 0)

/-- The backward scan loop of `ZeroesToBeginningRuntimeOptimized`
(`for (int i = array_size - 1; i >= 0; --i) if (array[i] != 0) { output[next] = array[i]; --next; }`).
`rtLoop a k output next` runs the loop body for indices `k-1, k-2, ..., 0`
of `a`, threading the scratch array `output` and the write cursor `next`;
it returns the final scratch array and cursor.  The cursor is a `Nat`
(truncating at 0) while the C cursor is an `int` that can reach `-1`; the
two agree on every index actually written, because the cursor is only
decremented after the write. -/
def rtLoop (a : List Int) : Nat → List Int → Nat → List Int × Nat
  | 0, output, next => (output, next)
  | k + 1, output, next =>
    if a.getD k 0 ≠ 0 then rtLoop a k (output.set next (a.getD k 0)) (next - 1)
    else rtLoop a k output next

/-- `ZeroesToBeginningRuntimeOptimized` from `ZeroesToBeginning.cc`.
Checks `array == NULL` then `array_size == 0` (returning `-1`), allocates
`new int[array_size]()` (zero-filled; throws instead of returning when
`array_size < 0`, modelled as `ub`), runs the backward scan, and
`memcpy`s the first `array_size` elements of the scratch array back over
the input.  When `array_size` exceeds the actual length the scan reads out
of bounds, modelled as `ub`. -/
def ZeroesToBeginningRuntimeOptimized (array : Option (List Int)) (array_size : Int) : CResult :=
  match array with
  | none => CResult.ret (-1) none
  | some a =>
    if array_size = 0 then CResult.ret (-1) (some a)
    else if array_size < 0 then CResult.ub
    else if array_size ≤ (a.length : Int) then
      CResult.ret 0 (some
        ((rtLoop (a.take array_size.toNat) array_size.toNat
            (List.replicate array_size.toNat 0) (array_size.toNat - 1)).1
          ++ a.drop array_size.toNat))
    else CResult.ub

/-- The inner while-loop of `ZeroesToBeginningSpaceOptimized`
(`while ((array[next_zero] == 0) && (i > next_zero)) ++next_zero;`):
advances `next_zero` past zero entries while it stays below `i`, and
returns the final cursor value. -/
def soInner (a : List Int) (i nz : Nat) : Nat :=
  if a.getD nz 0 = 0 ∧ nz < i then soInner a i (nz + 1) else nz
termination_by i - nz

/-- The outer for-loop of `ZeroesToBeginningSpaceOptimized`
(`for (int i = array_size - 1; i > next_zero; --i)`): when `array[i] == 0`
it runs the inner loop, then performs
`array[i] = array[next_zero]; array[next_zero] = 0;` and decrements `i`.
`soOuter a i nz` returns the final array contents. -/
def soOuter (a : List Int) (i nz : Nat) : List Int :=
  if nz < i then
    if a.getD i 0 = 0 then
      let nz2 := soInner a i nz
      soOuter ((a.set i (a.getD nz2 0)).set nz2 0) (i - 1) nz2
    else soOuter a (i - 1) nz
  else a
termination_by i
decreasing_by all_goals omega

/-- Combined cursor-advance count of the space-optimized loops: each outer
iteration contributes one `--i` step and `soInner`'s cursor movement
contributes its `++next_zero` steps. -/
def soSteps (a : List Int) (i nz : Nat) : Nat :=
  if nz < i then
    if a.getD i 0 = 0 then
      let nz2 := soInner a i nz
      1 + (nz2 - nz) + soSteps ((a.set i (a.getD nz2 0)).set nz2 0) (i - 1) nz2
    else 1 + soSteps a (i - 1) nz
  else 0
termination_by i
decreasing_by all_goals omega

/-- `ZeroesToBeginningSpaceOptimized` from `ZeroesToBeginning.cc`.
Checks `array == NULL` then `array_size == 0` (returning `-1`), then runs
the two-cursor in-place loop.  The loop touches only indices
`≤ array_size - 1`, so the call is well defined whenever
`array_size ≤ length`; it is also well defined for `array_size ≤ 1`
(including negative sizes), where the loop condition `i > next_zero` fails
immediately and the array is returned untouched.  Otherwise the first
iteration reads out of bounds, modelled as `ub`. -/
def ZeroesToBeginningSpaceOptimized (array : Option (List Int)) (array_size : Int) : CResult :=
  match array with
  | none => CResult.ret (-1) none
  | some a =>
    if array_size = 0 then CResult.ret (-1) (some a)
    else if array_size ≤ (a.length : Int) ∨ array_size ≤ 1 then
      CResult.ret 0 (some (soOuter a (array_size - 1).toNat 0))
    else CResult.ub

/-- Status component of a `CResult`, when the call returned at all. -/
def retStatus : CResult → Option Int
  | CResult.ret s _ => some s
  | CResult.ub => none

/-! ### Helper lemmas about the runtime-optimized scan -/

/-- Setting an index to the value it already holds leaves the list unchanged. -/
theorem set_getD_self : ∀ (l : List Int) (i : Nat), i < l.length → l.set i (l.getD i 0) = l
  | _ :: _, 0, _ => rfl
  | x :: t, i + 1, h => by
    have ih := set_getD_self t i (by simpa using h)
    simpa using ih

/-- Closed form of the backward scan: the scratch array keeps its first
`next + 1 - m` entries and its entries past `next`, and the `m` non-zero
elements of `a.take k` land in between, in their original relative order. -/
theorem rtLoop_fst (a : List Int) :
    ∀ (k : Nat) (output : List Int) (next : Nat),
      k ≤ a.length →
      (a.take k).countP (fun x => x != 0) ≤ next + 1 →
      next < output.length →
      (rtLoop a k output next).1 =
        output.take (next + 1 - (a.take k).countP (fun x => x != 0))
          ++ (a.take k).filter (fun x => x != 0)
          ++ output.drop (next + 1)
  | 0, output, next, _, _, _ => by
    simp [rtLoop]
  | k + 1, output, next, hk, hcnt, hnext => by
    have hklt : k < a.length := by omega
    have hx : a.getD k 0 = a[k] := by
      simp [List.getD_eq_getElem?_getD, List.getElem?_eq_getElem hklt]
    have htake : a.take (k + 1) = a.take k ++ [a[k]] := by
      rw [List.take_succ, List.getElem?_eq_getElem hklt]; rfl
    by_cases hzero : a.getD k 0 = 0
    · have hak : a[k] = 0 := hx ▸ hzero
      have hcnt' : (a.take (k + 1)).countP (fun x => x != 0)
          = (a.take k).countP (fun x => x != 0) := by
        simp [htake, List.countP_singleton, hak]
      have hfil : (a.take (k + 1)).filter (fun x => x != 0)
          = (a.take k).filter (fun x => x != 0) := by
        simp [htake, hak]
      have hstep : rtLoop a (k + 1) output next = rtLoop a k output next := by
        simp only [rtLoop]
        rw [if_neg (not_not_intro hzero)]
      rw [hstep, hcnt', hfil,
        rtLoop_fst a k output next (by omega) (by rw [hcnt'] at hcnt; omega) hnext]
    · have hak : a[k] ≠ 0 := hx ▸ hzero
      have hb : (a[k] != 0) = true := by simpa using hak
      have hcnt' : (a.take (k + 1)).countP (fun x => x != 0)
          = (a.take k).countP (fun x => x != 0) + 1 := by
        rw [htake, List.countP_append, List.countP_singleton, if_pos hb]
      have hfil : (a.take (k + 1)).filter (fun x => x != 0)
          = (a.take k).filter (fun x => x != 0) ++ [a.getD k 0] := by
        rw [htake, List.filter_append, hx]
        simp [hb]
      have hstep : rtLoop a (k + 1) output next
          = rtLoop a k (output.set next (a.getD k 0)) (next - 1) := by
        simp only [rtLoop]
        rw [if_pos hzero]
      have hmle : (a.take k).countP (fun x => x != 0) + 1 ≤ next + 1 := by
        rw [hcnt'] at hcnt; omega
      have ih := rtLoop_fst a k (output.set next (a.getD k 0)) (next - 1)
        (by omega) (by omega) (by simp; omega)
      rw [hstep, ih, hcnt', hfil]
      rcases Nat.eq_zero_or_pos next with hn0 | hnpos
      · subst hn0
        have hm0 : (a.take k).countP (fun x => x != 0) = 0 := by omega
        have hfil0 : (a.take k).filter (fun x => x != 0) = [] := by
          exact List.filter_eq_nil_iff.mpr (by simpa using List.countP_eq_zero.mp hm0)
        rcases output with _ | ⟨y, t⟩
        · simp at hnext
        · simp [hm0, hfil0]
      · have hs1 : next - 1 + 1 = next := by omega
        have htk : (output.set next (a.getD k 0)).take
              (next - (a.take k).countP (fun x => x != 0))
            = output.take (next - (a.take k).countP (fun x => x != 0)) := by
          rw [List.set_take]
          exact List.set_eq_of_length_le (by simp)
        have hdr : (output.set next (a.getD k 0)).drop next
            = a.getD k 0 :: output.drop (next + 1) := by
          rw [List.drop_set, if_neg (Nat.lt_irrefl next), Nat.sub_self]
          rw [List.drop_eq_getElem_cons hnext]
          rfl
        have harith : next + 1 - ((a.take k).countP (fun x => x != 0) + 1)
            = next - (a.take k).countP (fun x => x != 0) := by omega
        rw [hs1, harith, htk, hdr]
        simp

/-- The zero count and the non-zero count partition the length. -/
theorem zCount_add_nonzero (a : List Int) :
    zCount a + a.countP (fun x => x != 0) = a.length := by
  induction a with
  | nil => rfl
  | cons x t ih =>
    by_cases hx : x = 0 <;>
      simp [zCount, List.countP_cons, hx] at ih ⊢ <;> omega

/-- On a valid input (non-`NULL`, size equal to the actual length, at least
one element) the runtime-optimized mover returns success and its result is
`zCount a` zeros followed by the non-zero elements of `a` in order. -/
theorem rt_valid (a : List Int) (h : 1 ≤ a.length) :
    ZeroesToBeginningRuntimeOptimized (some a) (a.length : Int)
      = CResult.ret 0 (some (List.replicate (zCount a) 0
          ++ a.filter (fun x => x != 0))) := by
  have hne : (a.length : Int) ≠ 0 := by omega
  have hnneg : ¬ (a.length : Int) < 0 := by omega
  simp only [ZeroesToBeginningRuntimeOptimized, hne, if_false, hnneg, le_refl, if_true,
    Int.toNat_natCast, List.take_length, List.drop_length, List.append_nil]
  have hcle := List.countP_le_length (l := a) (p := fun x => x != 0)
  have hloop := rtLoop_fst a a.length (List.replicate a.length 0) (a.length - 1)
    (le_refl _) (by rw [List.take_length]; omega) (by simp; omega)
  rw [List.take_length] at hloop
  rw [hloop]
  have hdrop : (List.replicate a.length (0 : Int)).drop (a.length - 1 + 1) = [] :=
    List.drop_eq_nil_of_le (by simp; omega)
  have htk : (List.replicate a.length (0 : Int)).take
      (a.length - 1 + 1 - a.countP (fun x => x != 0)) = List.replicate (zCount a) 0 := by
    have hz : a.length - 1 + 1 - a.countP (fun x => x != 0) = zCount a := by
      have := zCount_add_nonzero a
      omega
    rw [hz]
    apply List.eq_replicate_iff.mpr
    refine ⟨by simp [(zCount_add_nonzero a).symm ▸ Nat.le_add_right (zCount a) _], ?_⟩
    intro b hb
    exact List.eq_of_mem_replicate (List.mem_of_mem_take hb)
  rw [hdrop, htk]
  simp

/-! ### Helper lemmas about the space-optimized in-place loop -/

/-- `getD` past a `set` at a different index is unchanged. -/
theorem getD_set_ne (l : List Int) (m j : Nat) (v : Int) (h : m ≠ j) :
    (l.set m v).getD j 0 = l.getD j 0 := by
  simp [List.getD_eq_getElem?_getD, List.getElem?_set_ne h]

/-- `getD` at a just-`set` index returns the written value. -/
theorem getD_set_self (l : List Int) (m : Nat) (v : Int) (h : m < l.length) :
    (l.set m v).getD m 0 = v := by
  simp [List.getD_eq_getElem?_getD, List.getElem?_set_self h]

/-- Moving the element at index `m` to the head and writing `x` at index `m`
permutes `x :: t`. -/
theorem headSwap_perm : ∀ (t : List Int) (m : Nat), m < t.length → ∀ x : Int,
    (t.getD m 0 :: t.set m x).Perm (x :: t)
  | y :: s, 0, _, x => by
    simpa using List.Perm.swap x y s
  | y :: s, m + 1, h, x => by
    have ih := headSwap_perm s m (by simpa using h) x
    exact (List.Perm.swap y (s.getD m 0) (s.set m x)).trans
      ((ih.cons y).trans (List.Perm.swap x y s))

/-- Swapping the entries at two indices (`j ≤ i`, expressed by two `set`s)
permutes the list. -/
theorem set_set_perm : ∀ (l : List Int) (i j : Nat), j ≤ i → i < l.length →
    ((l.set i (l.getD j 0)).set j (l.getD i 0)).Perm l
  | x :: t, 0, 0, _, _ => by
    simp [List.set_set]
  | x :: t, i + 1, 0, _, hi => by
    have hlt : i < t.length := by simpa using hi
    simpa using headSwap_perm t i hlt x
  | x :: t, i + 1, j + 1, hj, hi => by
    have ih := set_set_perm t i j (by omega) (by simpa using hi)
    simpa using ih.cons x

/-- Specification of the inner while-loop: the cursor only moves forward,
never beyond `i`, skips only zero entries, and stops either on a non-zero
entry or on meeting `i`. -/
theorem soInner_spec (a : List Int) (i nz : Nat) (h : nz ≤ i) :
    nz ≤ soInner a i nz ∧ soInner a i nz ≤ i
      ∧ (∀ j, nz ≤ j → j < soInner a i nz → a.getD j 0 = 0)
      ∧ (a.getD (soInner a i nz) 0 ≠ 0 ∨ soInner a i nz = i) := by
  by_cases hc : a.getD nz 0 = 0 ∧ nz < i
  · have hrec : soInner a i nz = soInner a i (nz + 1) := by
      rw [soInner.eq_def, if_pos hc]
    have ih := soInner_spec a i (nz + 1) (by omega)
    rw [hrec]
    refine ⟨by omega, ih.2.1, ?_, ih.2.2.2⟩
    intro j hj1 hj2
    rcases Nat.eq_or_lt_of_le hj1 with hj | hj
    · exact hj ▸ hc.1
    · exact ih.2.2.1 j hj hj2
  · have hrec : soInner a i nz = nz := by
      rw [soInner.eq_def, if_neg hc]
    rw [hrec]
    refine ⟨le_refl nz, h, by omega, ?_⟩
    rcases not_and_or.mp hc with hcz | hci
    · exact Or.inl hcz
    · exact Or.inr (by omega)
termination_by i - nz

/-- Zero entries are downward closed: every zero sits below every non-zero. -/
def dzClosed (r : List Int) : Prop :=
  ∀ j1 j2 : Nat, j1 < j2 → j2 < r.length → r.getD j2 0 = 0 → r.getD j1 0 = 0

/-- Invariant proof for the outer loop: starting from a state where all
entries below `nz` are zero and all entries above `i` are non-zero, the
loop preserves length and multiset and ends with the zero entries downward
closed. -/
theorem soOuter_spec (a : List Int) (i nz : Nat)
    (hi : i < a.length)
    (h1 : ∀ j, j < nz → a.getD j 0 = 0)
    (h2 : ∀ j, i < j → j < a.length → a.getD j 0 ≠ 0) :
    (soOuter a i nz).length = a.length ∧ (soOuter a i nz).Perm a
      ∧ dzClosed (soOuter a i nz) := by
  by_cases hcond : nz < i
  · by_cases hz : a.getD i 0 = 0
    · obtain ⟨hge, hle, hzeros, hstop⟩ := soInner_spec a i nz (le_of_lt hcond)
      have hrec : soOuter a i nz
          = soOuter ((a.set i (a.getD (soInner a i nz) 0)).set (soInner a i nz) 0)
              (i - 1) (soInner a i nz) := by
        rw [soOuter.eq_def, if_pos hcond, if_pos hz]
      rcases hstop with hstop | hstop
      · have hlt2 : soInner a i nz < i := by
          rcases Nat.eq_or_lt_of_le hle with he | hlt
          · exact absurd (by rw [he]; exact hz) hstop
          · exact hlt
        set nz2 := soInner a i nz with hnz2
        set a2 := (a.set i (a.getD nz2 0)).set nz2 0 with ha2
        have hlen2 : a2.length = a.length := by rw [ha2]; simp
        have hperm2 : a2.Perm a := by
          have hp := set_set_perm a i nz2 (le_of_lt hlt2) hi
          rw [hz] at hp
          rw [ha2]
          exact hp
        have h1' : ∀ j, j < nz2 → a2.getD j 0 = 0 := by
          intro j hj
          rw [ha2, getD_set_ne _ _ _ _ (by omega), getD_set_ne _ _ _ _ (by omega)]
          rcases Nat.lt_or_ge j nz with hjn | hjn
          · exact h1 j hjn
          · exact hzeros j hjn hj
        have h2' : ∀ j, i - 1 < j → j < a2.length → a2.getD j 0 ≠ 0 := by
          intro j hj hjl
          rw [hlen2] at hjl
          rcases Nat.eq_or_lt_of_le (by omega : i ≤ j) with he | hlt
          · rw [← he, ha2, getD_set_ne _ _ _ _ (by omega), getD_set_self _ _ _ hi]
            exact hstop
          · rw [ha2, getD_set_ne _ _ _ _ (by omega), getD_set_ne _ _ _ _ (by omega)]
            exact h2 j hlt hjl
        have ih := soOuter_spec a2 (i - 1) nz2 (by rw [hlen2]; omega) h1' h2'
        rw [hrec]
        exact ⟨ih.1.trans hlen2, ih.2.1.trans hperm2, ih.2.2⟩
      · have hzz : a.getD (soInner a i nz) 0 = 0 := by rw [hstop]; exact hz
        have ha2 : (a.set i (a.getD (soInner a i nz) 0)).set (soInner a i nz) 0 = a := by
          rw [hstop, set_getD_self a i hi]
          rw [show (0 : Int) = a.getD i 0 from hz.symm]
          exact set_getD_self a i hi
        have hexit : soOuter a (i - 1) (soInner a i nz) = a := by
          rw [soOuter.eq_def, if_neg (by omega)]
        rw [hrec, ha2, hexit]
        refine ⟨rfl, List.Perm.refl a, ?_⟩
        intro j1 j2 hj12 hj2l hj2z
        rcases Nat.lt_or_ge j1 nz with hj | hj
        · exact h1 j1 hj
        · have hj2le : j2 ≤ i := by
            by_contra hgt
            exact h2 j2 (by omega) hj2l hj2z
          exact hzeros j1 hj (by omega)
    · have hrec : soOuter a i nz = soOuter a (i - 1) nz := by
        rw [soOuter.eq_def, if_pos hcond, if_neg hz]
      have h2' : ∀ j, i - 1 < j → j < a.length → a.getD j 0 ≠ 0 := by
        intro j hj hjl
        rcases Nat.eq_or_lt_of_le (by omega : i ≤ j) with he | hlt
        · rw [← he]; exact hz
        · exact h2 j hlt hjl
      have ih := soOuter_spec a (i - 1) nz (by omega) h1 h2'
      rw [hrec]
      exact ih
  · have hrec : soOuter a i nz = a := by rw [soOuter.eq_def, if_neg hcond]
    rw [hrec]
    refine ⟨rfl, List.Perm.refl a, ?_⟩
    intro j1 j2 hj12 hj2l hj2z
    have hj2le : j2 ≤ i := by
      by_contra hgt
      exact h2 j2 (by omega) hj2l hj2z
    exact h1 j1 (by omega)
termination_by i
decreasing_by all_goals omega

/-- A list with downward-closed zeros is a block of zeros followed by
non-zero elements. -/
theorem dzClosed_structure : ∀ (r : List Int), dzClosed r →
    ∃ k w, r = List.replicate k 0 ++ w ∧ ∀ x ∈ w, x ≠ 0
  | [], _ => ⟨0, [], rfl, by simp⟩
  | x :: t, hdz => by
    by_cases hx : x = 0
    · have hdt : dzClosed t := by
        intro j1 j2 hj hl hz
        have := hdz (j1 + 1) (j2 + 1) (by omega) (by simpa using hl) (by simpa using hz)
        simpa using this
      obtain ⟨k, w, heq, hw⟩ := dzClosed_structure t hdt
      exact ⟨k + 1, w, by rw [List.replicate_succ, heq, hx]; rfl, hw⟩
    · refine ⟨0, x :: t, rfl, ?_⟩
      intro y hy hy0
      rcases List.mem_cons.mp hy with rfl | hyt
      · exact hx hy0
      · obtain ⟨j, hj, hjy⟩ := List.getElem_of_mem hyt
        have hz2 : (x :: t).getD (j + 1) 0 = 0 := by
          simp [List.getD_eq_getElem?_getD, List.getElem?_eq_getElem hj, hjy, hy0]
        have h0 := hdz 0 (j + 1) (by omega) (by simpa using hj) hz2
        simp at h0
        exact hx h0

/-- Index description of a zeros-then-nonzeros list. -/
theorem replicate_append_index (k : Nat) (w : List Int) (hw : ∀ x ∈ w, x ≠ 0) :
    zCount (List.replicate k 0 ++ w) = k
      ∧ (∀ j, j < k → (List.replicate k 0 ++ w).getD j 0 = 0)
      ∧ (∀ j, k ≤ j → j < k + w.length → (List.replicate k 0 ++ w).getD j 0 ≠ 0) := by
  refine ⟨?_, ?_, ?_⟩
  · unfold zCount
    rw [List.countP_append, List.countP_replicate]
    have hcw : w.countP (fun x => x == 0) = 0 :=
      List.countP_eq_zero.mpr (fun x hx => by simpa using hw x hx)
    simp [hcw]
  · intro j hj
    rw [List.getD_eq_getElem?_getD, List.getElem?_append_left (by simpa using hj)]
    simp [List.getElem?_replicate_of_lt hj]
  · intro j hj1 hj2
    rw [List.getD_eq_getElem?_getD,
      List.getElem?_append_right (by simpa using hj1)]
    have hlt : j - (List.replicate k (0 : Int)).length < w.length := by
      simp; omega
    rw [List.getElem?_eq_getElem hlt]
    exact hw _ (List.getElem_mem hlt)

/-- A permutation of `a` with downward-closed zeros has zeros exactly on the
indices below `zCount a` and non-zeros everywhere above. -/
theorem zeroFront_facts (r a : List Int) (hperm : r.Perm a) (hdz : dzClosed r) :
    (∀ j, j < zCount a → r.getD j 0 = 0)
      ∧ (∀ j, zCount a ≤ j → j < r.length → r.getD j 0 ≠ 0) := by
  obtain ⟨k, w, heq, hw⟩ := dzClosed_structure r hdz
  obtain ⟨hzc, hlow, hhigh⟩ := replicate_append_index k w hw
  have hzr : zCount r = zCount a := hperm.countP_eq _
  have hzk : k = zCount a := by rw [← hzr, heq]; exact hzc.symm
  have hrlen : r.length = k + w.length := by rw [heq]; simp
  constructor
  · intro j hj
    rw [heq]
    exact hlow j (by omega)
  · intro j hj1 hj2
    rw [heq]
    exact hhigh j (by omega) (by omega)

/-- The runtime-optimized result is a permutation of the input. -/
theorem replicate_filter_perm (a : List Int) :
    (List.replicate (zCount a) 0 ++ a.filter (fun x => x != 0)).Perm a := by
  have hrep : List.replicate (zCount a) 0 = a.filter (fun x => x == 0) := by
    symm
    rw [List.eq_replicate_iff]
    exact ⟨by rw [← List.countP_eq_length_filter]; rfl,
      fun b hb => by simpa using (List.mem_filter.mp hb).2⟩
  rw [hrep]
  exact List.filter_append_perm (fun x => x == 0) a

/-- The runtime-optimized result has downward-closed zeros. -/
theorem rt_result_dzClosed (a : List Int) :
    dzClosed (List.replicate (zCount a) 0 ++ a.filter (fun x => x != 0)) := by
  intro j1 j2 hj12 hj2l hj2z
  by_cases hj1k : j1 < zCount a
  · rw [List.getD_eq_getElem?_getD, List.getElem?_append_left (by simpa using hj1k)]
    simp [List.getElem?_replicate_of_lt hj1k]
  · exfalso
    have hw : ∀ x ∈ a.filter (fun x => x != 0), x ≠ 0 :=
      fun x hx => by simpa using (List.mem_filter.mp hx).2
    obtain ⟨_, _, hhigh⟩ := replicate_append_index (zCount a) _ hw
    have hl : j2 < zCount a + (a.filter (fun x => x != 0)).length := by
      simpa using hj2l
    exact hhigh j2 (by omega) hl hj2z

/-- On a valid input the space-optimized mover returns success with the
final state of the in-place loop. -/
theorem so_valid (a : List Int) (h : 1 ≤ a.length) :
    ZeroesToBeginningSpaceOptimized (some a) (a.length : Int)
      = CResult.ret 0 (some (soOuter a (a.length - 1) 0)) := by
  have hne : (a.length : Int) ≠ 0 := by omega
  have htn : ((a.length : Int) - 1).toNat = a.length - 1 := by omega
  simp only [ZeroesToBeginningSpaceOptimized]
  rw [if_neg hne, if_pos (Or.inl (le_refl _)), htn]

/-- Length, permutation and partition facts for the space-optimized result. -/
theorem so_result_spec (a : List Int) (h : 1 ≤ a.length) :
    (soOuter a (a.length - 1) 0).length = a.length
      ∧ (soOuter a (a.length - 1) 0).Perm a
      ∧ dzClosed (soOuter a (a.length - 1) 0) :=
  soOuter_spec a (a.length - 1) 0 (by omega)
    (fun j hj => absurd hj (by omega))
    (fun j hj1 hj2 => absurd hj2 (by omega))

/-- The combined advance count is bounded by the initial cursor gap plus
one: every outer iteration closes the gap by at least its own `--i`, and
every inner advance closes it by one more. -/
theorem soSteps_le (a : List Int) (i nz : Nat) : soSteps a i nz ≤ i + 1 - nz := by
  by_cases hcond : nz < i
  · by_cases hz : a.getD i 0 = 0
    · obtain ⟨hge, hle, -, -⟩ := soInner_spec a i nz (le_of_lt hcond)
      have hrec : soSteps a i nz = 1 + (soInner a i nz - nz)
          + soSteps ((a.set i (a.getD (soInner a i nz) 0)).set (soInner a i nz) 0)
              (i - 1) (soInner a i nz) := by
        rw [soSteps.eq_def, if_pos hcond, if_pos hz]
      have ih := soSteps_le ((a.set i (a.getD (soInner a i nz) 0)).set (soInner a i nz) 0)
        (i - 1) (soInner a i nz)
      rw [hrec]
      omega
    · have hrec : soSteps a i nz = 1 + soSteps a (i - 1) nz := by
        rw [soSteps.eq_def, if_pos hcond, if_neg hz]
      have ih := soSteps_le a (i - 1) nz
      rw [hrec]
      omega
  · have hrec : soSteps a i nz = 0 := by rw [soSteps.eq_def, if_neg hcond]
    omega
termination_by i
decreasing_by all_goals omega

/-- On an array without zeros the outer loop never fires its swap branch
and returns the array unchanged. -/
theorem soOuter_id (a : List Int) (hnz : ∀ x ∈ a, x ≠ 0) (i nz : Nat) (hi : i < a.length) :
    soOuter a i nz = a := by
  by_cases hcond : nz < i
  · have hz : a.getD i 0 ≠ 0 := by
      have hgi : a.getD i 0 = a[i] := by
        simp [List.getD_eq_getElem?_getD, List.getElem?_eq_getElem hi]
      rw [hgi]
      exact hnz _ (List.getElem_mem hi)
    rw [soOuter.eq_def, if_pos hcond, if_neg hz]
    exact soOuter_id a hnz (i - 1) nz (by omega)
  · rw [soOuter.eq_def, if_neg hcond]
termination_by i
decreasing_by all_goals omega

/-- The runtime-optimized result has the input's length. -/
theorem rt_result_length (a : List Int) :
    (List.replicate (zCount a) 0 ++ a.filter (fun x => x != 0)).length = a.length := by
  have h := zCount_add_nonzero a
  rw [List.countP_eq_length_filter] at h
  simpa using h

/-- Valid-input behaviour of the runtime-optimized mover, packaged. -/
theorem mover_valid_rt (a : List Int) (h : 1 ≤ a.length) :
    ∃ r, ZeroesToBeginningRuntimeOptimized (some a) (a.length : Int) = CResult.ret 0 (some r)
      ∧ r.length = a.length ∧ r.Perm a ∧ dzClosed r :=
  ⟨_, rt_valid a h, rt_result_length a, replicate_filter_perm a, rt_result_dzClosed a⟩

/-- Valid-input behaviour of the space-optimized mover, packaged. -/
theorem mover_valid_so (a : List Int) (h : 1 ≤ a.length) :
    ∃ r, ZeroesToBeginningSpaceOptimized (some a) (a.length : Int) = CResult.ret 0 (some r)
      ∧ r.length = a.length ∧ r.Perm a ∧ dzClosed r :=
  ⟨_, so_valid a h, (so_result_spec a h).1, (so_result_spec a h).2.1, (so_result_spec a h).2.2⟩

/-- One successful run of a mover, together with the zero-front partition
facts about its result: success status, preserved length, zeros exactly on
the indices below `zCount a`, non-zeros on the indices from `zCount a` up
to the length. -/
def zeroFrontOutcome (mover : Option (List Int) → Int → CResult) (a : List Int) : Prop :=
  ∃ r, mover (some a) (a.length : Int) = CResult.ret 0 (some r)
    ∧ r.length = a.length
    ∧ (∀ j, j < zCount a → r.getD j 0 = 0)
    ∧ (∀ j, zCount a ≤ j → j < a.length → r.getD j 0 ≠ 0)

/-- One successful run of a mover whose result carries the same multiset of
elements as the input. -/
def permOutcome (mover : Option (List Int) → Int → CResult) (a : List Int) : Prop :=
  ∃ r, mover (some a) (a.length : Int) = CResult.ret 0 (some r)
    ∧ (r : Multiset Int) = (a : Multiset Int)

/-- Two successive successful runs of a mover, where the second run's result
still has the zero-front partition with the same zero count as the input. -/
def zeroFrontTwice (mover : Option (List Int) → Int → CResult) (a : List Int) : Prop :=
  ∃ r s, mover (some a) (a.length : Int) = CResult.ret 0 (some r)
    ∧ mover (some r) (r.length : Int) = CResult.ret 0 (some s)
    ∧ zCount s = zCount r ∧ zCount r = zCount a
    ∧ s.length = a.length
    ∧ (∀ j, j < zCount a → s.getD j 0 = 0)
    ∧ (∀ j, zCount a ≤ j → j < a.length → s.getD j 0 ≠ 0)

/-- A mover whose valid-input behaviour preserves length and multiset and
produces downward-closed zeros satisfies the zero-front outcome. -/
theorem mover_once (mover : Option (List Int) → Int → CResult)
    (hv : ∀ b : List Int, 1 ≤ b.length →
      ∃ r, mover (some b) (b.length : Int) = CResult.ret 0 (some r)
        ∧ r.length = b.length ∧ r.Perm b ∧ dzClosed r)
    (a : List Int) (h : 1 ≤ a.length) : zeroFrontOutcome mover a := by
  obtain ⟨r, hr, hrl, hrp, hrdz⟩ := hv a h
  obtain ⟨hlow, hhigh⟩ := zeroFront_facts r a hrp hrdz
  exact ⟨r, hr, hrl, hlow, fun j hj1 hj2 => hhigh j hj1 (by omega)⟩

/-- A mover as in `mover_once` also satisfies the two-run outcome. -/
theorem mover_twice (mover : Option (List Int) → Int → CResult)
    (hv : ∀ b : List Int, 1 ≤ b.length →
      ∃ r, mover (some b) (b.length : Int) = CResult.ret 0 (some r)
        ∧ r.length = b.length ∧ r.Perm b ∧ dzClosed r)
    (a : List Int) (h : 1 ≤ a.length) : zeroFrontTwice mover a := by
  obtain ⟨r, hr, hrl, hrp, hrdz⟩ := hv a h
  obtain ⟨s, hs, hsl, hsp, hsdz⟩ := hv r (by omega)
  obtain ⟨hlow, hhigh⟩ := zeroFront_facts s a (hsp.trans hrp) hsdz
  refine ⟨r, s, hr, hs, hsp.countP_eq _, hrp.countP_eq _, by omega, hlow, ?_⟩
  intro j hj1 hj2
  exact hhigh j hj1 (by omega)

/-! ### Claim theorems -/

/-- C1: for every valid input (non-null array, size ≥ 1, size equal to the
array's actual length), after a successful call to either mover, with `z`
the number of zero-valued elements of the original array, every index in
`[0, z)` holds zero and every index in `[z, size)` holds a non-zero value. -/
theorem C1_zero_front_invariant (a : List Int) (h : 1 ≤ a.length) :
    zeroFrontOutcome ZeroesToBeginningRuntimeOptimized a
      ∧ zeroFrontOutcome ZeroesToBeginningSpaceOptimized a :=
  ⟨mover_once _ mover_valid_rt a h, mover_once _ mover_valid_so a h⟩

/-- Witness for C1 at the concrete input `[0, 7]`. -/
theorem C1_zero_front_invariant_witness :
    1 ≤ ([0, 7] : List Int).length
      ∧ (zeroFrontOutcome ZeroesToBeginningRuntimeOptimized [0, 7]
          ∧ zeroFrontOutcome ZeroesToBeginningSpaceOptimized [0, 7]) :=
  ⟨by decide, C1_zero_front_invariant [0, 7] (by decide)⟩

/-- C2: for every valid input, the multiset of elements after a successful
call to either mover equals the multiset before the call. -/
theorem C2_permutation_invariant (a : List Int) (h : 1 ≤ a.length) :
    permOutcome ZeroesToBeginningRuntimeOptimized a
      ∧ permOutcome ZeroesToBeginningSpaceOptimized a := by
  refine ⟨⟨_, rt_valid a h, ?_⟩, ⟨_, so_valid a h, ?_⟩⟩
  · exact Multiset.coe_eq_coe.mpr (replicate_filter_perm a)
  · exact Multiset.coe_eq_coe.mpr ((so_result_spec a h).2.1)

/-- Witness for C2 at the concrete input `[1, 0, 2]`. -/
theorem C2_permutation_invariant_witness :
    1 ≤ ([1, 0, 2] : List Int).length
      ∧ (permOutcome ZeroesToBeginningRuntimeOptimized [1, 0, 2]
          ∧ permOutcome ZeroesToBeginningSpaceOptimized [1, 0, 2]) :=
  ⟨by decide, C2_permutation_invariant [1, 0, 2] (by decide)⟩

/-- C3: with a null array reference (any count) or a zero count (any array,
including a meaningless non-null one) each mover returns the failure
indicator `-1` and leaves the array contents unchanged; the result does not
depend on the array contents at all, reflecting that the early return fires
before any array access. -/
theorem C3_invalid_input_rejection :
    (∀ s : Int, ZeroesToBeginningRuntimeOptimized none s = CResult.ret (-1) none
      ∧ ZeroesToBeginningSpaceOptimized none s = CResult.ret (-1) none)
    ∧ (∀ a : List Int, ZeroesToBeginningRuntimeOptimized (some a) 0 = CResult.ret (-1) (some a)
      ∧ ZeroesToBeginningSpaceOptimized (some a) 0 = CResult.ret (-1) (some a)) :=
  ⟨fun _ => ⟨rfl, rfl⟩, fun _ => ⟨rfl, rfl⟩⟩

/-- C4 counterexample: the claim says a non-positive count is rejected with
the failure indicator, but the space-optimized mover called with count `-3`
returns the success indicator `0`: the code only tests `array_size == 0`. -/
theorem C4_counterexample_negative_size :
    retStatus (ZeroesToBeginningSpaceOptimized (some [5]) (-3)) = some 0
      ∧ ZeroesToBeginningSpaceOptimized (some [5]) (-3) ≠ CResult.ret (-1) (some [5]) := by
  constructor
  · simp [ZeroesToBeginningSpaceOptimized, soOuter, retStatus]
  · simp [ZeroesToBeginningSpaceOptimized, soOuter]

/-- C4 amended: each mover returns the failure indicator exactly when the
array is absent or the count is zero (with no processing in those cases);
with a non-null array and a negative count, the space-optimized mover
returns success leaving the array untouched, while the runtime-optimized
mover performs a negative-size allocation (undefined behaviour, `ub`)
instead of returning an indicator; on valid inputs both return success. -/
theorem C4_status_exactness :
    (∀ s : Int, retStatus (ZeroesToBeginningRuntimeOptimized none s) = some (-1)
      ∧ retStatus (ZeroesToBeginningSpaceOptimized none s) = some (-1))
    ∧ (∀ a : List Int, retStatus (ZeroesToBeginningRuntimeOptimized (some a) 0) = some (-1)
      ∧ retStatus (ZeroesToBeginningSpaceOptimized (some a) 0) = some (-1))
    ∧ (∀ a : List Int, 1 ≤ a.length →
        retStatus (ZeroesToBeginningRuntimeOptimized (some a) (a.length : Int)) = some 0
        ∧ retStatus (ZeroesToBeginningSpaceOptimized (some a) (a.length : Int)) = some 0)
    ∧ (∀ (a : List Int) (s : Int), s < 0 →
        ZeroesToBeginningSpaceOptimized (some a) s = CResult.ret 0 (some a)
        ∧ ZeroesToBeginningRuntimeOptimized (some a) s = CResult.ub) := by
  refine ⟨fun _ => ⟨rfl, rfl⟩, fun _ => ⟨rfl, rfl⟩, ?_, ?_⟩
  · intro a h
    rw [rt_valid a h, so_valid a h]
    exact ⟨rfl, rfl⟩
  · intro a s hs
    constructor
    · have h0 : (s - 1).toNat = 0 := by omega
      have hso : soOuter a 0 0 = a := by
        rw [soOuter.eq_def, if_neg (by omega)]
      simp only [ZeroesToBeginningSpaceOptimized]
      rw [if_neg (by omega), if_pos (Or.inr (by omega)), h0, hso]
    · simp only [ZeroesToBeginningRuntimeOptimized]
      rw [if_neg (by omega), if_pos hs]

/-- Witness for C4's amended statement: success on a valid singleton input
and success-with-unchanged-array on a negative count. -/
theorem C4_status_exactness_witness :
    retStatus (ZeroesToBeginningRuntimeOptimized (some [7]) (([7] : List Int).length : Int))
        = some 0
      ∧ ZeroesToBeginningSpaceOptimized (some [7]) (-2) = CResult.ret 0 (some [7]) :=
  ⟨(C4_status_exactness.2.2.1 [7] (by decide)).1,
    (C4_status_exactness.2.2.2 [7] (-2) (by decide)).1⟩

/-- C5: on every valid input the runtime-optimized mover succeeds and its
result equals the scratch-buffer construction that its definition embeds
(zero-filled buffer written back-to-front with the non-zero elements of the
backward scan): `zCount a` zeros followed by the non-zero elements of the
input in their original relative order. -/
theorem C5_scratch_construction (a : List Int) (h : 1 ≤ a.length) :
    ZeroesToBeginningRuntimeOptimized (some a) (a.length : Int)
      = CResult.ret 0 (some (List.replicate (zCount a) 0
          ++ a.filter (fun x => x != 0))) :=
  rt_valid a h

/-- Witness for C5 at the concrete input `[1, 0]`. -/
theorem C5_scratch_construction_witness :
    1 ≤ ([1, 0] : List Int).length
      ∧ ZeroesToBeginningRuntimeOptimized (some [1, 0]) (([1, 0] : List Int).length : Int)
          = CResult.ret 0 (some (List.replicate (zCount [1, 0]) 0
              ++ ([1, 0] : List Int).filter (fun x => x != 0))) :=
  ⟨by decide, C5_scratch_construction [1, 0] (by decide)⟩

/-- C6: on the unit test's input `[1,2,3,4,5,6,7,8,0,0]` with size 10, each
mover returns success and produces its listed expected output (the first
listed vector for the runtime-optimized mover, the second for the
space-optimized one), so each produces one of the two listed outputs. -/
theorem C6_unit_test_vectors :
    ZeroesToBeginningRuntimeOptimized (some [1, 2, 3, 4, 5, 6, 7, 8, 0, 0]) 10
        = CResult.ret 0 (some [0, 0, 1, 2, 3, 4, 5, 6, 7, 8])
      ∧ ZeroesToBeginningSpaceOptimized (some [1, 2, 3, 4, 5, 6, 7, 8, 0, 0]) 10
        = CResult.ret 0 (some [0, 0, 3, 4, 5, 6, 7, 8, 2, 1]) := by
  constructor
  · decide
  · simp [ZeroesToBeginningSpaceOptimized, soOuter, soInner]

/-- C7: applying the same mover twice on a valid input succeeds both times
and the second result still satisfies the zero-front partition with the
same zero count as after the first application. -/
theorem C7_repeated_application (a : List Int) (h : 1 ≤ a.length) :
    zeroFrontTwice ZeroesToBeginningRuntimeOptimized a
      ∧ zeroFrontTwice ZeroesToBeginningSpaceOptimized a :=
  ⟨mover_twice _ mover_valid_rt a h, mover_twice _ mover_valid_so a h⟩

/-- Witness for C7 at the concrete input `[0, 5]`. -/
theorem C7_repeated_application_witness :
    1 ≤ ([0, 5] : List Int).length
      ∧ (zeroFrontTwice ZeroesToBeginningRuntimeOptimized [0, 5]
          ∧ zeroFrontTwice ZeroesToBeginningSpaceOptimized [0, 5]) :=
  ⟨by decide, C7_repeated_application [0, 5] (by decide)⟩

/-- C8: on every valid input the space-optimized mover terminates with
success (its loops are total functions), and the combined number of outer
`--i` steps and inner `++next_zero` steps is at most `size`. -/
theorem C8_termination_linear_steps (a : List Int) (h : 1 ≤ a.length) :
    (∃ r, ZeroesToBeginningSpaceOptimized (some a) (a.length : Int) = CResult.ret 0 (some r))
      ∧ soSteps a (a.length - 1) 0 ≤ a.length := by
  refine ⟨⟨_, so_valid a h⟩, ?_⟩
  have hb := soSteps_le a (a.length - 1) 0
  omega

/-- Witness for C8 at the concrete all-zero input `[0, 0, 0]`. -/
theorem C8_termination_linear_steps_witness :
    1 ≤ ([0, 0, 0] : List Int).length
      ∧ ((∃ r, ZeroesToBeginningSpaceOptimized (some [0, 0, 0])
            (([0, 0, 0] : List Int).length : Int) = CResult.ret 0 (some r))
        ∧ soSteps [0, 0, 0] (([0, 0, 0] : List Int).length - 1) 0
            ≤ ([0, 0, 0] : List Int).length) :=
  ⟨by decide, C8_termination_linear_steps [0, 0, 0] (by decide)⟩

/-- C9: each mover is deterministic: equal inputs (array contents and size)
give equal status and identical output arrays.  In the embedding both
movers are pure functions of their arguments — the source uses no global
state, randomness or time — so equal inputs give literally equal results. -/
theorem C9_deterministic (arr1 arr2 : Option (List Int)) (s1 s2 : Int)
    (ha : arr1 = arr2) (hs : s1 = s2) :
    ZeroesToBeginningRuntimeOptimized arr1 s1 = ZeroesToBeginningRuntimeOptimized arr2 s2
      ∧ ZeroesToBeginningSpaceOptimized arr1 s1 = ZeroesToBeginningSpaceOptimized arr2 s2 := by
  subst ha hs
  exact ⟨rfl, rfl⟩

/-- Witness for C9 at the concrete input `[4, 0]` with size 2. -/
theorem C9_deterministic_witness :
    ZeroesToBeginningRuntimeOptimized (some [4, 0]) 2
        = ZeroesToBeginningRuntimeOptimized (some [4, 0]) 2
      ∧ ZeroesToBeginningSpaceOptimized (some [4, 0]) 2
        = ZeroesToBeginningSpaceOptimized (some [4, 0]) 2 :=
  C9_deterministic (some [4, 0]) (some [4, 0]) 2 2 rfl rfl

/-- C10: on a valid input containing no zero at all, each mover returns
success and leaves the array exactly unchanged, element for element. -/
theorem C10_zero_free_identity (a : List Int) (h : 1 ≤ a.length)
    (hnz : ∀ x ∈ a, x ≠ 0) :
    ZeroesToBeginningRuntimeOptimized (some a) (a.length : Int) = CResult.ret 0 (some a)
      ∧ ZeroesToBeginningSpaceOptimized (some a) (a.length : Int) = CResult.ret 0 (some a) := by
  have hz0 : zCount a = 0 :=
    List.countP_eq_zero.mpr (fun x hx => by simpa using hnz x hx)
  have hfa : a.filter (fun x => x != 0) = a :=
    List.filter_eq_self.mpr (fun x hx => by simpa using hnz x hx)
  constructor
  · rw [rt_valid a h, hz0, hfa]
    rfl
  · rw [so_valid a h, soOuter_id a hnz (a.length - 1) 0 (by omega)]

/-- Witness for C10 at the concrete zero-free input `[2, 3]`. -/
theorem C10_zero_free_identity_witness :
    1 ≤ ([2, 3] : List Int).length
      ∧ (∀ x ∈ ([2, 3] : List Int), x ≠ 0)
      ∧ (ZeroesToBeginningRuntimeOptimized (some [2, 3]) (([2, 3] : List Int).length : Int)
            = CResult.ret 0 (some [2, 3])
        ∧ ZeroesToBeginningSpaceOptimized (some [2, 3]) (([2, 3] : List Int).length : Int)
            = CResult.ret 0 (some [2, 3])) :=
  ⟨by decide, by decide, C10_zero_free_identity [2, 3] (by decide) (by decide)⟩
